import Mathlib

/-!
Verification of the pool-hours scraping and aggregation core
(`scraping-utils.js`, `app/api/pool-hours/route.js`,
`app/api/weekly-hours/route.js`).

Shallow embedding conventions:
* an absolute instant is represented as minutes since the Unix epoch
  (`Int`); all comparisons the JavaScript code performs on ISO timestamp
  strings or `moment` objects at minute granularity become `Int`
  comparisons on this representation;
* a calendar date is represented as its day number: days since
  1970-01-01 (`Int`);
* a civil timezone used by the weekly route for the client is modelled
  as a constant offset east of UTC in minutes (client-timezone DST
  transitions at week boundaries are outside the model);
* the site timezone `America/Los_Angeles` is modelled with its real
  daylight-saving rule at civil-day granularity (second Sunday of March
  through first Sunday of November), matching the IANA data that
  `moment-timezone` consults for every date away from the transition
  hours themselves.
-/

namespace PoolHours

/-- Day of week for a day number (days since 1970-01-01, a Thursday):
0 = Sunday, 1 = Monday, ..., 6 = Saturday.  This is the numbering of
`moment.day()` used in `getWeekBoundaries`. -/
def dayOfWeekZ (z : Int) : Int := (z + 4) % 7

/-- The weekday names produced by `moment.format('dddd')`, indexed by
`dayOfWeekZ`. -/
def weekdayNames : List String :=
  ["Sunday", "Monday", "Tuesday", "Wednesday", "Thursday", "Friday", "Saturday"]

/-- `format('dddd')` for a day number. -/
def dayNameOf (z : Int) : String := weekdayNames.getD (dayOfWeekZ z).toNat ""

/-- Day number (days since 1970-01-01) of a civil date
(Howard Hinnant's `days_from_civil` algorithm, the arithmetic underlying
every civil-date/timestamp conversion `moment` performs). -/
def daysFromCivil (y m d : Int) : Int :=
  let y2 := if m ≤ 2 then y - 1 else y
  let era := y2 / 400
  let yoe := y2 - era * 400
  let mp := (m + 9) % 12
  let doy := (153 * mp + 2) / 5 + d - 1
  let doe := yoe * 365 + yoe / 4 - yoe / 100 + doy
  era * 146097 + doe - 719468

/-- Civil date `(year, month, day)` of a day number (Hinnant's
`civil_from_days`). -/
def civilFromDays (z0 : Int) : Int × Int × Int :=
  let z := z0 + 719468
  let era := z / 146097
  let doe := z - era * 146097
  let yoe := (doe - doe / 1460 + doe / 36524 - doe / 146096) / 365
  let y := yoe + era * 400
  let doy := doe - (365 * yoe + yoe / 4 - yoe / 100)
  let mp := (5 * doy + 2) / 153
  let d := doy - (153 * mp + 2) / 5 + 1
  let m := if mp < 10 then mp + 3 else mp - 9
  (if m ≤ 2 then y + 1 else y, m, d)

/-- The UTC instant (minutes since epoch) of a Y-M-D H:M wall-clock
reading taken directly in UTC. -/
def utcMinutes (y m d hh mm : Int) : Int :=
  1440 * daysFromCivil y m d + 60 * hh + mm

/-- UTC offset of `America/Los_Angeles`, in minutes east of UTC, for a
civil date given as a day number: -420 (PDT) from the second Sunday of
March through the day before the first Sunday of November, -480 (PST)
otherwise.  This is the United States daylight-saving rule the IANA
`America/Los_Angeles` zone follows (2007-), at civil-day granularity. -/
def laOffsetForDay (z : Int) : Int :=
  let y := (civilFromDays z).1
  let mar1 := daysFromCivil y 3 1
  let secondSundayMarch := mar1 + (7 - dayOfWeekZ mar1) % 7 + 7
  let nov1 := daysFromCivil y 11 1
  let firstSundayNov := nov1 + (7 - dayOfWeekZ nov1) % 7
  if secondSundayMarch ≤ z ∧ z < firstSundayNov then -420 else -480

/-- LA civil date (day number) of an absolute instant, the computation
behind `moment(t).tz('America/Los_Angeles').format('dddd')` and
`startOf('day')` in the source.  The DST side of the offset is selected
from the UTC day of the instant; it agrees with the IANA rule except
within hours of the two yearly transitions. -/
def laDateOf (t : Int) : Int :=
  (t + laOffsetForDay (t / 1440)) / 1440

/-- UTC offset (east of UTC, minutes) that `moment.tz` assigns to a
wall-clock reading in `America/Los_Angeles`, where `L` is the reading
in minutes since epoch as if it were UTC.  This follows
moment-timezone's `Zone.parse` with its default flags
(`moveInvalidForward = true`, `moveAmbiguousForward = false`) on the
zone's alternating PST/PDT intervals: scanning the intervals in order,
the PST interval's local cutoff is 03:00 on the spring-forward day
(gap-adjusted by the next offset), so a reading inside the skipped
02:00-03:00 hour still maps with the pre-transition PST offset, while
the PDT interval's local cutoff is 02:00 on the fall-back day, so an
ambiguous reading maps with the earlier (PDT) occurrence. -/
def laOffsetForLocal (L : Int) : Int :=
  let y := (civilFromDays (L / 1440)).1
  let mar1 := daysFromCivil y 3 1
  let secondSundayMarch := mar1 + (7 - dayOfWeekZ mar1) % 7 + 7
  let nov1 := daysFromCivil y 11 1
  let firstSundayNov := nov1 + (7 - dayOfWeekZ nov1) % 7
  if 1440 * secondSundayMarch + 180 ≤ L ∧ L < 1440 * firstSundayNov + 120 then -420
  else -480

/-- The UTC instant `moment.tz(wallClock, 'YYYY-MM-DD HH:mm',
'America/Los_Angeles')` denotes: the reading minus the offset the zone
assigns to that full wall-clock value. -/
def localToUtcLA (L : Int) : Int := L - laOffsetForLocal L

/-! ### The time pattern `\d{1,2}:\d{2}(?:am|pm)` and the range pattern
`\d{1,2}:\d{2}(?:am|pm)\s*-\s*\d{1,2}:\d{2}(?:am|pm)` (case-insensitive),
modelled as an explicit matcher over character lists.  JavaScript's
`String.match` without the global flag returns the leftmost match; the
only backtracking point in these patterns, the 1-vs-2-digit hour, is
resolved exactly as the greedy JS engine resolves it. -/

/-- A matched 12-hour clock reading: hour and minute digits as written,
and whether the meridiem was `pm`. -/
structure Clock12 where
  hour : Nat
  minute : Nat
  pm : Bool
  deriving DecidableEq, Repr

/-- Numeric value of a decimal digit character. -/
def digitVal (c : Char) : Nat := c.toNat - '0'.toNat

/-- Matches `(?:am|pm)` case-insensitively at the head of the input,
returning `pm?` and the rest. -/
def matchMeridiem : List Char → Option (Bool × List Char)
  | c :: d :: rest =>
    if (c.toLower = 'a' ∨ c.toLower = 'p') ∧ d.toLower = 'm' then
      some (c.toLower = 'p', rest)
    else none
  | _ => none

/-- Given an already-read hour value, matches `:\d{2}(?:am|pm)` at the
head of the input. -/
def matchClockRest (h : Nat) : List Char → Option (Clock12 × List Char)
  | ':' :: d1 :: d2 :: rest =>
    if d1.isDigit ∧ d2.isDigit then
      (matchMeridiem rest).map fun pr =>
        (⟨h, digitVal d1 * 10 + digitVal d2, pr.1⟩, pr.2)
    else none
  | _ => none

/-- Matches `\d{1,2}:\d{2}(?:am|pm)` at the head of the input: the
greedy two-digit hour is tried first, falling back to one digit. -/
def matchClock : List Char → Option (Clock12 × List Char)
  | c1 :: c2 :: rest =>
    if c1.isDigit then
      if c2.isDigit then
        match matchClockRest (digitVal c1 * 10 + digitVal c2) rest with
        | some r => some r
        | none => matchClockRest (digitVal c1) (c2 :: rest)
      else matchClockRest (digitVal c1) (c2 :: rest)
    else none
  | _ => none

/-- Leftmost occurrence of the single-clock pattern anywhere in the
input: the model of `/\d{1,2}:\d{2}(?:am|pm)/i.test(text)`. -/
def findClock : List Char → Option Clock12
  | [] => none
  | c :: rest =>
    match matchClock (c :: rest) with
    | some r => some r.1
    | none => findClock rest

/-- `\s*` — drops leading whitespace (greedy; the following literal `-`
is never whitespace, so greediness is exact here). -/
def dropSpaces (l : List Char) : List Char := l.dropWhile Char.isWhitespace

/-- Matches the full range pattern at the head of the input. -/
def matchRangeAt (l : List Char) : Option (Clock12 × Clock12) :=
  match matchClock l with
  | none => none
  | some (c1, rest) =>
    match dropSpaces rest with
    | '-' :: rest2 =>
      match matchClock (dropSpaces rest2) with
      | some (c2, _) => some (c1, c2)
      | none => none
    | _ => none

/-- Leftmost occurrence of the range pattern anywhere in the input. -/
def findRange : List Char → Option (Clock12 × Clock12)
  | [] => none
  | c :: rest =>
    match matchRangeAt (c :: rest) with
    | some r => some r
    | none => findRange rest

/-- 12-hour to 24-hour conversion as performed by
`moment(x, 'h:mma').format('HH:mm')`: moment's meridiem fixup adds 12
only when the meridiem is pm and the parsed hour is below 12, and maps
hour 12 with am to 0; any other hour (including out-of-range readings
like 13 with pm) is kept as written.  The result is returned as
minutes after midnight. -/
def clockToMinutes (c : Clock12) : Nat :=
  let h24 := if c.pm then (if c.hour < 12 then c.hour + 12 else c.hour)
             else (if c.hour = 12 then 0 else c.hour)
  h24 * 60 + c.minute

/-- `parseTimeRange` (scraping-utils.js lines 126-134): extracts the
first `H:MM(am|pm) - H:MM(am|pm)` occurrence and converts both clocks
to 24-hour form; `none` models the JS `null` when the pattern is
absent.  The two 24-hour readings are represented as minutes after
midnight. -/
def parseTimeRange (timeRange : String) : Option (Nat × Nat) :=
  (findRange timeRange.toList).map fun pr =>
    (clockToMinutes pr.1, clockToMinutes pr.2)

/-! ### Schedule extraction (`parseAllPoolHours`, scraping-utils.js
lines 141-302) -/

/-- Substring containment over character lists: the model of
JavaScript's `String.includes`. -/
def containsSubL (pat : List Char) : List Char → Bool
  | [] => pat.isEmpty
  | c :: rest => pat.isPrefixOf (c :: rest) || containsSubL pat rest

/-- `s.includes(pat)`. -/
def containsSub (s pat : String) : Bool := containsSubL pat.toList s.toList

/-- `toLowerCase()`, character by character. -/
def strLower (s : String) : String := ⟨s.data.map Char.toLower⟩

/-- `trim()`: leading and trailing whitespace removed. -/
def strTrim (s : String) : String :=
  ⟨((s.data.dropWhile Char.isWhitespace).reverse.dropWhile
      Char.isWhitespace).reverse⟩

/-- Whether `p` is a prefix of `s` (the anchored `^` test). -/
def startsWithL (s p : String) : Bool := p.data.isPrefixOf s.data

/-- JavaScript `String.split` on a character class: groups between
separator occurrences, empty groups preserved. -/
def splitPred (p : Char → Bool) : List Char → List (List Char)
  | [] => [[]]
  | c :: rest =>
    match splitPred p rest with
    | [] => [[]]
    | g :: gs => if p c then [] :: g :: gs else (c :: g) :: gs

/-- `normalizeDayName` (lines 311-332): the fixed abbreviation table,
keyed by the lowercased trimmed token; `none` models the JS `null`. -/
def normalizeDayName (dayName : String) : Option String :=
  let dayMap : List (String × String) :=
    [("mon", "Monday"), ("monday", "Monday"),
     ("tue", "Tuesday"), ("tuesday", "Tuesday"),
     ("wed", "Wednesday"), ("wednesday", "Wednesday"),
     ("thu", "Thursday"), ("thr", "Thursday"), ("thursday", "Thursday"),
     ("fri", "Friday"), ("friday", "Friday"),
     ("sat", "Saturday"), ("saturday", "Saturday"),
     ("sun", "Sunday"), ("sunday", "Sunday")]
  let normalized := strTrim (strLower dayName)
  (dayMap.find? fun p => p.1 == normalized).map Prod.snd

/-- The full weekday names `days` of `getDayRange` (line 341), Monday
first. -/
def days7 : List String :=
  ["Monday", "Tuesday", "Wednesday", "Thursday", "Friday", "Saturday", "Sunday"]

/-- The abbreviated names `shortDays` of `getDayRange` (line 342). -/
def shortDays7 : List String :=
  ["Mon", "Tue", "Wed", "Thu", "Fri", "Sat", "Sun"]

/-- Case-insensitive `findIndex` over a list of day names; `none`
models the JS `-1` sentinel. -/
def findDayIdx (l : List String) (x : String) : Option Nat :=
  l.findIdx? fun day => strLower day == strLower x

/-- Index resolution of one endpoint of `getDayRange`: the short names
are consulted first, the full names only on failure (lines 349-370). -/
def resolveDayIdx (x : String) : Option Nat :=
  match findDayIdx shortDays7 x with
  | some i => some i
  | none => findDayIdx days7 x

/-- `getDayRange` (lines 340-383).  When either endpoint is
unrecognized the two trimmed endpoint strings are returned verbatim;
otherwise the result is `days[startIndex..endIndex]` inclusive, which
is empty when `endIndex < startIndex` (the JS `for` loop body never
runs). -/
def getDayRange (startDay endDay : String) : List String :=
  let normalizedStartDay := strTrim startDay
  let normalizedEndDay := strTrim endDay
  match resolveDayIdx normalizedStartDay, resolveDayIdx normalizedEndDay with
  | some startIndex, some endIndex =>
    (List.range (endIndex + 1 - startIndex)).map fun k =>
      days7.getD (startIndex + k) ""
  | _, _ => [normalizedStartDay, normalizedEndDay]

/-- Session type tag: `'lap'` or `'rec'`. -/
inductive SType where
  | lap
  | recr
  deriving DecidableEq, Repr

/-- The per-time-cell session type resolution (lines 260-282): start
from the table-level default, override to `lap` when the cell or row
text mentions lap swimming, then override to `rec` when any of the
recreational markers appears — the `rec` check runs last.  `cellText`
and `rowText` arrive lowercased, as in the source. -/
def resolveSessionType (tableSessionType : SType) (cellText rowText : String) : SType :=
  let afterLap :=
    if containsSub cellText "lap swim" || containsSub rowText "lap swim" then
      SType.lap
    else tableSessionType
  if containsSub cellText "rec swim" ||
     containsSub cellText "recreational swim" ||
     containsSub cellText "open swim" ||
     containsSub cellText "family swim" ||
     containsSub rowText "rec swim" ||
     containsSub rowText "recreational swim" ||
     containsSub rowText "open swim" ||
     containsSub rowText "family swim" then
    SType.recr
  else afterLap

/-- Day-cell test (line 230): the trimmed lowercased cell text starts
with one of the weekday alternatives of
`/^(mon|tue|wed|thu|fri|sat|sun|monday|...|sunday)/i`. -/
def dayCellTest (s : String) : Bool :=
  let text := strLower (strTrim s)
  ["mon", "tue", "wed", "thu", "fri", "sat", "sun",
   "monday", "tuesday", "wednesday", "thursday", "friday", "saturday",
   "sunday"].any fun p => startsWithL text p

/-- Time-cell test (lines 235, 258): the text contains a
`\d{1,2}:\d{2}(?:am|pm)` occurrence. -/
def timeCellTest (s : String) : Bool := (findClock s.toList).isSome

/-- Day-name test on a table's combined text (line 165): some weekday
token occurs as a substring, case-insensitively.  The combined text is
lowercased by the caller, so lowercase tokens suffice. -/
def hasDayNamesTest (s : String) : Bool :=
  ["mon", "tue", "wed", "thu", "fri", "sat", "sun",
   "monday", "tuesday", "wednesday", "thursday", "friday", "saturday",
   "sunday"].any fun p => containsSub s p

/-- Time-pattern test on a table's combined text (line 164): the full
range pattern occurs somewhere. -/
def hasTimePatternTest (s : String) : Bool := (findRange s.toList).isSome

/-- One extracted entry before normalization: the `{time, type}` object
pushed into `allHours[dayName]` (lines 289-292). -/
structure RawEntry where
  time : String
  type : SType
  deriving DecidableEq, Repr

/-- Index of the last cell passing a test, with the running index
threaded: the JS `cells.each` loop (lines 226-238) overwrites
`dayColumn` on every hit, so the last matching cell wins. -/
def lastIdxFrom (p : String → Bool) : List String → Nat → Option Nat → Option Nat
  | [], _, acc => acc
  | c :: rest, i, acc => lastIdxFrom p rest (i + 1) (if p c then some i else acc)

/-- Indices of all cells passing a test, in order: the `timeColumns`
accumulation of the same loop. -/
def idxsWhere (p : String → Bool) (cells : List String) : List Nat :=
  (cells.enum.filter fun pr => p pr.2).map Prod.fst

/-- Day-name list for a day cell's text (lines 246-253): with a hyphen
present, the first two `split('-')` components feed `getDayRange`;
otherwise the text splits on `/` or `-` and each token is normalized,
dropping unrecognized ones. -/
def dayNamesOf (dayText : String) : List String :=
  if containsSub dayText "-" then
    let parts := (splitPred (fun c => c = '-') dayText.data).map fun g => (⟨g⟩ : String)
    getDayRange (strTrim (parts.getD 0 "")) (strTrim (parts.getD 1 ""))
  else
    (((splitPred (fun c => c = '/' ∨ c = '-') dayText.data).map
        fun g => strTrim ⟨g⟩).filterMap normalizeDayName)

/-- Row extraction (lines 217-298): rows with fewer than 2 cells are
skipped; the day column is the last day-like cell, the time columns are
every time-like cell; each time cell contributes one `(dayName, entry)`
pair per resolved day name.  A row is modelled by its list of cell
texts; the row text `$(row).text()` is their concatenation. -/
def rowEntries (tableSessionType : SType) (cells : List String) : List (String × RawEntry) :=
  if cells.length < 2 then []
  else
    match lastIdxFrom dayCellTest cells 0 none with
    | none => []
    | some dayColumn =>
      let timeColumns := idxsWhere timeCellTest cells
      if timeColumns.isEmpty then []
      else
        let dayText := strTrim (cells.getD dayColumn "")
        if dayText = "" then []
        else
          let dayNames := dayNamesOf dayText
          let rowText := strLower (String.join cells)
          timeColumns.flatMap fun timeColumnIndex =>
            let timeText := strTrim (cells.getD timeColumnIndex "")
            if timeText ≠ "" ∧ timeCellTest timeText then
              let cellText := strLower (cells.getD timeColumnIndex "")
              let sessionType := resolveSessionType tableSessionType cellText rowText
              dayNames.map fun dayName => (dayName, ⟨timeText, sessionType⟩)
            else []

/-- A table of the document, as the extractor sees it: its rows (lists
of cell texts), the lowercased text of the surrounding elements
(`prevAll` + `nextAll`, line 159-160), and the section header most
recently preceding it, when one exists — the outcome of the
header-position scan of lines 144-214 (including the document-text
fallback), which depends only on DOM geometry outside this model. -/
structure TableM where
  rows : List (List String)
  context : String
  headerType : Option SType

/-- The table's own text, lowercased (line 158): concatenation of every
cell. -/
def tableTextOf (t : TableM) : String :=
  strLower (String.join (t.rows.map String.join))

/-- All `(dayName, entry)` pairs a single table contributes (lines
156-299): tables whose combined text lacks the time pattern or the day
names are skipped; otherwise the table-level default type is the
preceding header's type, or `rec` when none precedes. -/
def tableEntries (t : TableM) : List (String × RawEntry) :=
  let combinedText := tableTextOf t ++ t.context
  if hasTimePatternTest combinedText ∧ hasDayNamesTest combinedText then
    let tableSessionType := t.headerType.getD SType.recr
    t.rows.flatMap (rowEntries tableSessionType)
  else []

/-- `parseAllPoolHours` (lines 141-302): the mapping from weekday name
to the entries accumulated for it, in push order.  The JS object's
per-key arrays are recovered by filtering the document-order entry
sequence on the key. -/
def parseAllPoolHours (doc : List TableM) (dayName : String) : List RawEntry :=
  ((doc.flatMap tableEntries).filter fun pr => pr.1 == dayName).map Prod.snd

/-! ### Time normalization and the date-parameterized day aggregator
(`scrapePoolHours(clientDate)`, scraping-utils.js lines 10-117) -/

/-- One element of the `hours` array (lines 61-67).  `startUtc` and
`endUtc` carry the instants whose `toISOString()` renderings the JS
object stores under `start` and `end`. -/
structure TimestampedHour where
  startUtc : Int
  endUtc : Int
  timezone : String
  original : String
  type : SType
  deriving DecidableEq, Repr

/-- The entry built for one session on the target date `z` from parsed
24-hour minutes `(a, b)` (lines 51-67): each wall-clock reading is
interpreted by `moment.tz` in `America/Los_Angeles` on date `z` and
converted to UTC, the offset of each endpoint resolved independently
from its own full wall-clock datetime (so the two endpoints of a range
straddling a DST transition can get different offsets). -/
def mkTimestampedHour (z : Int) (a b : Nat) (session : RawEntry) : TimestampedHour :=
  { startUtc := localToUtcLA (1440 * z + a)
    endUtc := localToUtcLA (1440 * z + b)
    timezone := "GMT"
    original := session.time
    type := session.type }

/-- The `forEach` accumulation of lines 48-69: entries whose time text
fails `parseTimeRange` are skipped. -/
def rawHoursFor (sessions : List RawEntry) (z : Int) : List TimestampedHour :=
  sessions.filterMap fun session =>
    (parseTimeRange session.time).map fun ab =>
      mkTimestampedHour z ab.1 ab.2 session

/-- Stable insertion of an entry after every entry with a
less-or-equal start. -/
def insertByStart (e : TimestampedHour) : List TimestampedHour → List TimestampedHour
  | [] => [e]
  | x :: xs => if x.startUtc ≤ e.startUtc then x :: insertByStart e xs else e :: x :: xs

/-- The stable ascending-by-start sort of line 72
(`timestampedHours.sort((a, b) => new Date(a.start) - new Date(b.start))`;
JS `Array.prototype.sort` is stable). -/
def sortByStart (l : List TimestampedHour) : List TimestampedHour :=
  l.foldl (fun acc e => insertByStart e acc) []

/-- The normalized, sorted session list the day aggregator produces for
a target date from that weekday's raw entries. -/
def normalizeDay (sessions : List RawEntry) (z : Int) : List TimestampedHour :=
  sortByStart (rawHoursFor sessions z)

/-- The success-path result object of `scrapePoolHours(clientDate)`
(lines 74-80).  The JS literal has no `isOpenNow` key, so reading that
property yields `undefined`: modelled as an `Option Bool` fixed at
`none`.  The `timestamp` field (`moment().utc()`, the ambient response
time) is not tracked. -/
structure DayOut where
  hours : List TimestampedHour
  error : Option String
  date : Int
  dayName : String
  isOpenNow : Option Bool
  deriving Repr

/-- `scrapePoolHours(clientDate)` (lines 10-117) on the success path,
with the fetched-and-parsed document and the target date (as a day
number, the parse of the `YYYY-MM-DD` string in the site timezone) as
inputs: looks up the target weekday's entries in the extracted mapping
(`allPoolHours[targetDayName] || []`), normalizes and sorts them. -/
def scrapePoolHours (doc : List TableM) (z : Int) : DayOut :=
  let targetDayName := dayNameOf z
  let targetDayHours := parseAllPoolHours doc targetDayName
  { hours := normalizeDay targetDayHours z
    error := none
    date := z
    dayName := targetDayName
    isOpenNow := none }

/-! ### `checkIfOpenNow` (app/api/pool-hours/route.js lines 545-583) -/

/-- `checkIfOpenNow(timestampedHours)` with the ambient current instant
made explicit: keeps the slots whose start falls on today's LA weekday
name, then tests whether `now` lies within any kept `[start, end]`
range inclusively at minute granularity (`isBetween(..., 'minute',
'[]')`). -/
def checkIfOpenNow (now : Int) (timestampedHours : List TimestampedHour) : Bool :=
  let currentDay := dayNameOf (laDateOf now)
  let todaySlots := timestampedHours.filter fun slot =>
    dayNameOf (laDateOf slot.startUtc) == currentDay
  if todaySlots.isEmpty then false
  else todaySlots.any fun slot =>
    decide (slot.startUtc ≤ now) && decide (now ≤ slot.endUtc)

/-! ### Weekly aggregation (`app/api/weekly-hours/route.js`) -/

/-- What one day-fetch settles to: the `hours`/`error` pair the
`.then`/`.catch` handlers of lines 76-94 read off the scraper's result
or the rejection. -/
structure DayFetch where
  hours : List TimestampedHour
  error : Option String

/-- One element of `weekData` (lines 77-94). -/
structure WeekDay where
  date : Int
  dayName : String
  hours : List TimestampedHour
  error : Option String
  isToday : Bool
  deriving Inhabited

/-- The route's result object (lines 113-120); `timestamp` is not
tracked. -/
structure WeekOut where
  weekData : List WeekDay
  weekStartDate : Int
  weekEndDate : Int
  weekOffset : Int
  error : Option String

/-- `getWeekBoundaries` (lines 129-173), returning the `weekStart`
instant: current local civil time in the client timezone (modelled as
the constant offset `tzOff`, minutes east of UTC), plus
`weekOffset` weeks and `daysToMonday` days, then `startOf('day')` in
the client zone; `.utc()` only changes the display mode, so the instant
is local midnight minus the offset. -/
def getWeekBoundaries (now tzOff weekOffset : Int) : Int :=
  let localNow := now + tzOff
  let currentDayOfWeek := dayOfWeekZ (localNow / 1440)
  let daysToMonday := if currentDayOfWeek = 0 then -6 else -(currentDayOfWeek - 1)
  let localShifted := localNow + 1440 * (7 * weekOffset + daysToMonday)
  1440 * (localShifted / 1440) - tzOff

/-- The week-level error rollup (lines 102-111): the all-days-failed
message when every day carries an error (`day.error !== null`),
otherwise the no-data message when no day has any session, otherwise
no week-level error. -/
def weekErrorOf (weekData : List WeekDay) : Option String :=
  let hasAnyData := weekData.any fun day => decide (0 < day.hours.length)
  let hasAllErrors := weekData.all fun day => day.error.isSome
  if hasAllErrors then some "Failed to fetch data for all days of the week"
  else if !hasAnyData then some "No pool hours data available for this week"
  else none

/-- `aggregateWeeklyPoolHours(weekOffset, clientTimezone)` (lines
51-121) with the ambient current instant and the per-date day fetch
(`scrapePoolHoursForDate`, outcome including the `.catch` fold) made
explicit.  `weekStartDate`, each day's `date` string and `dayName`, and
`weekEndDate` are `format`ted in UTC display mode, so they render the
UTC civil date of the instant; `endOf('day')` truncates within the UTC
day, leaving `weekEndDate` on `weekStart + 6` days. -/
def aggregateWeeklyPoolHours (fetch : Int → DayFetch) (now tzOff weekOffset : Int) :
    WeekOut :=
  let weekStart := getWeekBoundaries now tzOff weekOffset
  let weekData := (List.range 7).map fun i =>
    let currentDayInstant := weekStart + 1440 * (i : Int)
    let dateNum := currentDayInstant / 1440
    let dayData := fetch dateNum
    { date := dateNum
      dayName := dayNameOf dateNum
      hours := dayData.hours
      error := dayData.error
      isToday := (currentDayInstant + tzOff) / 1440 = (now + tzOff) / 1440
      : WeekDay }
  { weekData := weekData
    weekStartDate := weekStart / 1440
    weekEndDate := (weekStart + 1440 * 6) / 1440
    weekOffset := weekOffset
    error := weekErrorOf weekData }

/-! ### Helper lemmas -/

theorem mem_insertByStart {x e : TimestampedHour} {l : List TimestampedHour} :
    x ∈ insertByStart e l ↔ x = e ∨ x ∈ l := by
  induction l with
  | nil => simp [insertByStart]
  | cons a as ih =>
    simp only [insertByStart]
    split
    · simp only [List.mem_cons, ih]
      tauto
    · simp only [List.mem_cons]

theorem mem_sortByStart_aux {x : TimestampedHour} (l acc : List TimestampedHour) :
    x ∈ l.foldl (fun acc e => insertByStart e acc) acc ↔ x ∈ acc ∨ x ∈ l := by
  induction l generalizing acc with
  | nil => simp
  | cons a as ih =>
    simp only [List.foldl_cons, ih, mem_insertByStart, List.mem_cons]
    tauto

/-- Sorting the normalized sessions neither adds nor removes any. -/
theorem mem_sortByStart {x : TimestampedHour} {l : List TimestampedHour} :
    x ∈ sortByStart l ↔ x ∈ l := by
  simp [sortByStart, mem_sortByStart_aux]

/-- A found index is a position in the searched list. -/
theorem findDayIdx_lt {l : List String} {x : String} {i : Nat}
    (h : findDayIdx l x = some i) : i < l.length := by
  unfold findDayIdx at h
  exact (List.findIdx?_eq_some_iff_findIdx_eq.mp h).1

/-- A resolved weekday index is a position in one of the two 7-element
name lists. -/
theorem resolveDayIdx_lt_seven {x : String} {i : Nat}
    (h : resolveDayIdx x = some i) : i < 7 := by
  unfold resolveDayIdx at h
  rcases h7 : findDayIdx shortDays7 x with _ | j <;> rw [h7] at h
  · simpa [days7] using findDayIdx_lt h
  · obtain rfl : j = i := by simpa using h
    simpa [shortDays7] using findDayIdx_lt h7

/-- The LA offset is one of the two values PST/PDT. -/
theorem laOffset_cases (z : Int) :
    laOffsetForDay z = -480 ∨ laOffsetForDay z = -420 := by
  unfold laOffsetForDay
  dsimp only
  split
  · exact Or.inr rfl
  · exact Or.inl rfl

/-- The LA civil date of an instant never decreases as the instant
advances (even across DST transitions of the model). -/
theorem laDateOf_mono {t1 t2 : Int} (h : t1 ≤ t2) : laDateOf t1 ≤ laDateOf t2 := by
  by_cases hD : t1 / 1440 = t2 / 1440
  · unfold laDateOf
    rw [hD]
    rcases laOffset_cases (t2 / 1440) with ho | ho <;> rw [ho] <;> omega
  · unfold laDateOf
    rcases laOffset_cases (t1 / 1440) with h1 | h1 <;>
      rcases laOffset_cases (t2 / 1440) with h2 | h2 <;> rw [h1, h2] <;> omega

/-- The recreational override fires whenever the row text mentions
"family swim", whatever the default and the earlier lap check did. -/
theorem resolveSessionType_eq_recr {t : SType} {cellText rowText : String}
    (h : containsSub rowText "family swim" = true) :
    resolveSessionType t cellText rowText = SType.recr := by
  simp [resolveSessionType, h]

/-- The `dayColumn` scan leaves its accumulator untouched when no cell
passes the test. -/
theorem lastIdxFrom_of_all_false {p : String → Bool} (cells : List String)
    (h : ∀ c ∈ cells, p c = false) :
    ∀ (i : Nat) (acc : Option Nat), lastIdxFrom p cells i acc = acc := by
  induction cells with
  | nil => intro i acc; rfl
  | cons c rest ih =>
    intro i acc
    unfold lastIdxFrom
    rw [h c (List.mem_cons_self c rest)]
    exact ih (fun x hx => h x (List.mem_cons_of_mem c hx)) (i + 1) acc

/-- A row none of whose cells looks like a day cell contributes
nothing. -/
theorem rowEntries_eq_nil_of_no_day_cells {t : SType} {cells : List String}
    (h : ∀ c ∈ cells, dayCellTest c = false) :
    rowEntries t cells = [] := by
  unfold rowEntries
  split
  · rfl
  · rw [lastIdxFrom_of_all_false cells h 0 none]

/-- A table none of whose cells looks like a day cell contributes
nothing. -/
theorem tableEntries_eq_nil_of_no_day_cells {t : TableM}
    (h : ∀ r ∈ t.rows, ∀ c ∈ r, dayCellTest c = false) :
    tableEntries t = [] := by
  unfold tableEntries
  dsimp only
  split
  · rw [List.flatMap_eq_nil_iff]
    intro r hr
    exact rowEntries_eq_nil_of_no_day_cells (h r hr)
  · rfl

/-- Characterization of the week-level error rollup on an arbitrary
day list. -/
theorem weekErrorOf_spec (l : List WeekDay) :
    (weekErrorOf l = some "Failed to fetch data for all days of the week" ↔
      ∀ d ∈ l, d.error ≠ none) ∧
    (weekErrorOf l = some "No pool hours data available for this week" ↔
      ¬(∀ d ∈ l, d.error ≠ none) ∧ ∀ d ∈ l, d.hours = []) ∧
    (weekErrorOf l = none ↔
      ¬(∀ d ∈ l, d.error ≠ none) ∧ ∃ d ∈ l, d.hours ≠ []) := by
  unfold weekErrorOf
  dsimp only
  by_cases h1 : (l.all fun day => day.error.isSome) = true
  · have h1' : ∀ d ∈ l, d.error ≠ none := by
      intro d hd
      have := List.all_eq_true.mp h1 d hd
      simpa [Option.isSome_iff_ne_none] using this
    rw [if_pos h1]
    refine ⟨⟨fun _ => h1', fun _ => rfl⟩, ⟨?_, ?_⟩, ⟨?_, ?_⟩⟩
    · intro hcontra
      exact absurd (Option.some.inj hcontra) (by decide)
    · intro hc
      exact absurd h1' hc.1
    · intro hcontra
      exact absurd hcontra (by simp)
    · intro hc
      exact absurd h1' hc.1
  · have h1' : ¬ ∀ d ∈ l, d.error ≠ none := by
      intro hall
      exact h1 (List.all_eq_true.mpr fun d hd => by
        simpa [Option.isSome_iff_ne_none] using hall d hd)
    rw [if_neg h1]
    by_cases h2 : (l.any fun day => decide (0 < day.hours.length)) = true
    · have h2' : ∃ d ∈ l, d.hours ≠ [] := by
        obtain ⟨d, hd, hp⟩ := List.any_eq_true.mp h2
        refine ⟨d, hd, ?_⟩
        have := of_decide_eq_true hp
        simpa [← List.length_pos] using this
      rw [h2, Bool.not_true, if_neg (by simp)]
      refine ⟨⟨?_, ?_⟩, ⟨?_, ?_⟩, ⟨fun _ => ⟨h1', h2'⟩, fun _ => rfl⟩⟩
      · intro hcontra
        exact absurd hcontra (by simp)
      · intro hall
        exact absurd hall h1'
      · intro hcontra
        exact absurd hcontra (by simp)
      · intro hc
        obtain ⟨d, hd, hne⟩ := h2'
        exact absurd (hc.2 d hd) hne
    · have h2' : ∀ d ∈ l, d.hours = [] := by
        intro d hd
        by_contra hne
        exact h2 (List.any_eq_true.mpr
          ⟨d, hd, decide_eq_true (by simpa [← List.length_pos] using hne)⟩)
      have h2f : (l.any fun day => decide (0 < day.hours.length)) = false :=
        Bool.not_eq_true _ ▸ by simpa using h2
      rw [h2f, Bool.not_false, if_pos rfl]
      refine ⟨⟨?_, ?_⟩, ⟨fun _ => ⟨h1', h2'⟩, fun _ => rfl⟩, ⟨?_, ?_⟩⟩
      · intro hcontra
        exact absurd (Option.some.inj hcontra) (by decide)
      · intro hall
        exact absurd hall h1'
      · intro hcontra
        exact absurd hcontra (by simp)
      · intro hc
        obtain ⟨d, hd, hne⟩ := hc.2
        exact absurd (h2' d hd) hne

/-! ### Claims -/

/-- C1: the Time Normalizer takes `"7:30am - 11:00am"` to 07:30-11:00
24-hour wall-clock minutes, and interpreting them in
`America/Los_Angeles` yields 2024-01-15T15:30:00Z-2024-01-15T19:00:00Z
on standard-time date 2024-01-15 (UTC-8) and
2024-07-15T14:30:00Z-2024-07-15T18:00:00Z on daylight-time date
2024-07-15 (UTC-7). -/
theorem c1_normalizer_dst_scenarios :
    parseTimeRange "7:30am - 11:00am" = some (450, 660) ∧
    normalizeDay [⟨"7:30am - 11:00am", SType.lap⟩] (daysFromCivil 2024 1 15) =
      [{ startUtc := utcMinutes 2024 1 15 15 30, endUtc := utcMinutes 2024 1 15 19 0,
         timezone := "GMT", original := "7:30am - 11:00am", type := SType.lap }] ∧
    normalizeDay [⟨"7:30am - 11:00am", SType.lap⟩] (daysFromCivil 2024 7 15) =
      [{ startUtc := utcMinutes 2024 7 15 14 30, endUtc := utcMinutes 2024 7 15 18 0,
         timezone := "GMT", original := "7:30am - 11:00am", type := SType.lap }] := by
  decide

/-- C4 (counterexample): with both endpoints recognized weekday names
but the end index before the start index, `getDayRange` returns the
empty list — the claimed two-endpoint result only arises when an
endpoint is unrecognized, so the claim is false on `"Fri"`/`"Mon"`. -/
theorem c4_counterexample :
    resolveDayIdx "Fri" = some 4 ∧ resolveDayIdx "Mon" = some 0 ∧
    getDayRange "Fri" "Mon" = [] ∧
    getDayRange "Fri" "Mon" ≠ ["Fri", "Mon"] := by
  decide

/-- C4 (amended): when both endpoints resolve to weekday indices `a`
and `b`, `getDayRange` returns exactly the slice of the full weekday
names from index `a` through `b` inclusive — `"Mon"`-`"Fri"` gives the
five weekdays in order — and the slice is empty (not the two
endpoints) when `b < a`. -/
theorem c4_day_range_amended (s e : String) (a b : Nat)
    (hs : resolveDayIdx (strTrim s) = some a)
    (he : resolveDayIdx (strTrim e) = some b) :
    getDayRange s e = (days7.drop a).take (b + 1 - a) := by
  have ha : a < 7 := by
    have := resolveDayIdx_lt_seven hs
    omega
  have hb : b < 7 := by
    have := resolveDayIdx_lt_seven he
    omega
  unfold getDayRange
  dsimp only
  rw [hs, he]
  interval_cases a <;> interval_cases b <;> rfl

/-- C4 (witness). -/
theorem c4_day_range_witness :
    resolveDayIdx (strTrim "Mon") = some 0 ∧ resolveDayIdx (strTrim "Fri") = some 4 ∧
    getDayRange "Mon" "Fri" = (days7.drop 0).take (4 + 1 - 0) ∧
    (days7.drop 0).take (4 + 1 - 0) =
      ["Monday", "Tuesday", "Wednesday", "Thursday", "Friday"] :=
  ⟨by decide, by decide,
   c4_day_range_amended "Mon" "Fri" 0 4 (by decide) (by decide), by decide⟩

/-- C5 (counterexample): `"11:00pm - 1:00am"` parses successfully, yet
the emitted session has its end strictly before its start — the source
takes the end literally with no overnight rollover; and on the
DST-transition date 2024-03-10 the range `"2:30am - 3:00am"` is
emitted as 10:30Z-10:00Z (the skipped 02:30 maps with the
pre-transition PST offset, 03:00 with PDT), so `start < end` fails
even with the readings in order. -/
theorem c5_counterexample :
    parseTimeRange "11:00pm - 1:00am" = some (1380, 60) ∧
    (normalizeDay [⟨"11:00pm - 1:00am", SType.recr⟩] (daysFromCivil 2024 1 15)).map
        (fun e => decide (e.startUtc < e.endUtc)) = [false] ∧
    parseTimeRange "2:30am - 3:00am" = some (150, 180) ∧
    (normalizeDay [⟨"2:30am - 3:00am", SType.lap⟩] (daysFromCivil 2024 3 10)).map
        (fun e => (e.startUtc, e.endUtc)) =
      [(utcMinutes 2024 3 10 10 30, utcMinutes 2024 3 10 10 0)] := by
  decide

/-- C5 (amended): `start < end` is not an invariant of the normalizer:
an overnight-looking range is emitted literally with `end ≤ start`,
and on a DST-transition date the two endpoints can resolve to
different offsets, flipping the comparison.  When both endpoints of a
parsed range resolve to the same `America/Los_Angeles` offset on the
target date — every date without a transition — the emitted session
satisfies `start < end` exactly when the parsed 24-hour start reading
is earlier in the day than the end reading. -/
theorem c5_start_lt_end_iff (s : String) (ty : SType) (z : Int) (a b : Nat)
    (hp : parseTimeRange s = some (a, b))
    (hoff : laOffsetForLocal (1440 * z + a) = laOffsetForLocal (1440 * z + b)) :
    ∀ e ∈ normalizeDay [⟨s, ty⟩] z, (e.startUtc < e.endUtc ↔ a < b) := by
  intro e he
  rw [normalizeDay, mem_sortByStart] at he
  have hr : rawHoursFor [⟨s, ty⟩] z = [mkTimestampedHour z a b ⟨s, ty⟩] := by
    simp [rawHoursFor, hp]
  rw [hr, List.mem_singleton] at he
  subst he
  simp only [mkTimestampedHour, localToUtcLA]
  omega

/-- C5 (witness). -/
theorem c5_start_lt_end_witness :
    parseTimeRange "7:30am - 11:00am" = some (450, 660) ∧
    laOffsetForLocal (1440 * daysFromCivil 2024 1 15 + 450) =
      laOffsetForLocal (1440 * daysFromCivil 2024 1 15 + 660) ∧
    ({ startUtc := utcMinutes 2024 1 15 15 30, endUtc := utcMinutes 2024 1 15 19 0,
       timezone := "GMT", original := "7:30am - 11:00am", type := SType.lap
       : TimestampedHour }.startUtc <
      { startUtc := utcMinutes 2024 1 15 15 30, endUtc := utcMinutes 2024 1 15 19 0,
        timezone := "GMT", original := "7:30am - 11:00am", type := SType.lap
        : TimestampedHour }.endUtc ↔ 450 < 660) :=
  ⟨by decide, by decide,
   c5_start_lt_end_iff "7:30am - 11:00am" SType.lap (daysFromCivil 2024 1 15) 450 660
     (by decide) (by decide) _ (by decide)⟩

/-- C8: when the range pattern is absent from a time string,
`parseTimeRange` returns `none` (the total model never throws), and
the day aggregator's normalization drops that entry while every other
entry of the day is processed unchanged. -/
theorem c8_unparseable_dropped (s : String) (hp : findRange s.toList = none) :
    parseTimeRange s = none ∧
    ∀ (ty : SType) (pre post : List RawEntry) (z : Int),
      normalizeDay (pre ++ ⟨s, ty⟩ :: post) z = normalizeDay (pre ++ post) z := by
  have hp2 : findRange s.data = none := hp
  have hpt : parseTimeRange s = none := by
    simp [parseTimeRange, String.toList, hp2]
  refine ⟨hpt, fun ty pre post z => ?_⟩
  unfold normalizeDay rawHoursFor
  rw [List.filterMap_append, List.filterMap_append, List.filterMap_cons, hpt]
  simp

/-- C8 (witness). -/
theorem c8_unparseable_dropped_witness :
    findRange "Closed for maintenance".toList = none ∧
    parseTimeRange "Closed for maintenance" = none ∧
    normalizeDay ([] ++ ⟨"Closed for maintenance", SType.lap⟩ ::
        [⟨"7:30am - 11:00am", SType.lap⟩]) (daysFromCivil 2024 1 15) =
      normalizeDay ([] ++ [⟨"7:30am - 11:00am", SType.lap⟩]) (daysFromCivil 2024 1 15) :=
  ⟨by decide, (c8_unparseable_dropped "Closed for maintenance" (by decide)).1,
   (c8_unparseable_dropped "Closed for maintenance" (by decide)).2 SType.lap []
     [⟨"7:30am - 11:00am", SType.lap⟩] (daysFromCivil 2024 1 15)⟩

/-- C3: when a row's text contains both the lap marker and the
"family swim" recreational marker, every session the row contributes is
classified recreational, for every table-level default — the rec-marker
override runs after the lap override. -/
theorem c3_rec_override_wins (tableSessionType : SType) (cells : List String)
    (hlap : containsSub (strLower (String.join cells)) "lap swim" = true)
    (hfam : containsSub (strLower (String.join cells)) "family swim" = true) :
    ∀ p ∈ rowEntries tableSessionType cells, p.2.type = SType.recr := by
  intro p hp
  unfold rowEntries at hp
  dsimp only at hp
  split at hp
  · exact absurd hp (List.not_mem_nil p)
  · split at hp
    · exact absurd hp (List.not_mem_nil p)
    · split at hp
      · exact absurd hp (List.not_mem_nil p)
      · split at hp
        · exact absurd hp (List.not_mem_nil p)
        · rw [List.mem_flatMap] at hp
          obtain ⟨ti, _, hp⟩ := hp
          split at hp
          · rw [List.mem_map] at hp
            obtain ⟨dn, _, rfl⟩ := hp
            exact resolveSessionType_eq_recr hfam
          · exact absurd hp (List.not_mem_nil p)

/-- C3 (witness). -/
theorem c3_rec_override_wins_witness :
    containsSub (strLower (String.join
      ["Mon", "Lap Swim and Family Swim 1:00pm - 2:00pm"])) "lap swim" = true ∧
    containsSub (strLower (String.join
      ["Mon", "Lap Swim and Family Swim 1:00pm - 2:00pm"])) "family swim" = true ∧
    (("Monday", (⟨"Lap Swim and Family Swim 1:00pm - 2:00pm", SType.recr⟩ : RawEntry))
      : String × RawEntry).2.type = SType.recr :=
  ⟨by decide, by decide,
   c3_rec_override_wins SType.lap ["Mon", "Lap Swim and Family Swim 1:00pm - 2:00pm"]
     (by decide) (by decide)
     ("Monday", ⟨"Lap Swim and Family Swim 1:00pm - 2:00pm", SType.recr⟩) (by decide)⟩

/-- C9: the extractor is total by construction (a Lean function of the
table-shaped document), and a document none of whose cells is
recognizable as a day cell or a time cell yields the empty mapping for
every weekday — zero sessions, no exception. -/
theorem c9_no_cells_empty_mapping (doc : List TableM)
    (h : ∀ t ∈ doc, ∀ r ∈ t.rows, ∀ c ∈ r, dayCellTest c = false ∧ timeCellTest c = false) :
    ∀ dayName, parseAllPoolHours doc dayName = [] := by
  intro dayName
  unfold parseAllPoolHours
  have hflat : doc.flatMap tableEntries = [] := by
    rw [List.flatMap_eq_nil_iff]
    intro t ht
    exact tableEntries_eq_nil_of_no_day_cells fun r hr c hc => (h t ht r hr c hc).1
  rw [hflat]
  rfl

/-- C9 (witness). -/
theorem c9_no_cells_empty_mapping_witness :
    (∀ t ∈ [(⟨[["hello", "world"], ["closed"]], "mon 7:30am - 8:30am", none⟩ : TableM)],
      ∀ r ∈ t.rows, ∀ c ∈ r, dayCellTest c = false ∧ timeCellTest c = false) ∧
    parseAllPoolHours [⟨[["hello", "world"], ["closed"]], "mon 7:30am - 8:30am", none⟩]
      "Monday" = [] :=
  ⟨by decide,
   c9_no_cells_empty_mapping [⟨[["hello", "world"], ["closed"]], "mon 7:30am - 8:30am", none⟩]
     (by decide) "Monday"⟩

/-- C7 (counterexample): a date-parameterized day-aggregator result
carries no `isOpenNow` value at all (the JS object literal of lines
74-80 has no such key, so reading it gives `undefined`), which is not
the claimed `false` — even for a date with sessions. -/
theorem c7_counterexample :
    (scrapePoolHours [⟨[["Mon", "7:30am - 11:00am"]], "lap swim hours",
        some SType.lap⟩] (daysFromCivil 2024 1 15)).isOpenNow = none ∧
    (scrapePoolHours [⟨[["Mon", "7:30am - 11:00am"]], "lap swim hours",
        some SType.lap⟩] (daysFromCivil 2024 1 15)).isOpenNow ≠ some false := by
  exact ⟨rfl, by decide⟩

/-- C7 (amended): the date-parameterized day aggregator emits no
`isOpenNow` at all, and the one place `isOpenNow` is computed
(`checkIfOpenNow`, in the today-only route) returns `false` whenever
every slot's start and end fall on an LA civil date other than now's —
in particular for the sessions of any non-today target date, whatever
their contents. -/
theorem c7_not_today_closed (doc : List TableM) (z now : Int)
    (slots : List TimestampedHour)
    (hslots : ∀ s ∈ slots, laDateOf s.startUtc = z ∧ laDateOf s.endUtc = z)
    (hnow : laDateOf now ≠ z) :
    (scrapePoolHours doc z).isOpenNow = none ∧ checkIfOpenNow now slots = false := by
  refine ⟨rfl, ?_⟩
  unfold checkIfOpenNow
  dsimp only
  split
  · rfl
  · rw [List.any_eq_false]
    intro slot hslot
    rw [List.mem_filter] at hslot
    obtain ⟨hmem, _⟩ := hslot
    obtain ⟨h1, h2⟩ := hslots slot hmem
    cases hd : decide (slot.startUtc ≤ now) with
    | false => simp
    | true =>
      rw [Bool.true_and, decide_eq_true_eq]
      intro hle
      have u1 := laDateOf_mono (of_decide_eq_true hd)
      have u2 := laDateOf_mono hle
      rw [h1] at u1
      rw [h2] at u2
      exact hnow (le_antisymm u2 u1)

/-- C7 (witness). -/
theorem c7_not_today_closed_witness :
    (∀ s ∈ [({ startUtc := utcMinutes 2024 1 15 15 30,
               endUtc := utcMinutes 2024 1 15 19 0, timezone := "GMT",
               original := "7:30am - 11:00am", type := SType.lap
               : TimestampedHour })],
       laDateOf s.startUtc = daysFromCivil 2024 1 15 ∧
       laDateOf s.endUtc = daysFromCivil 2024 1 15) ∧
    laDateOf (utcMinutes 2024 1 16 18 0) ≠ daysFromCivil 2024 1 15 ∧
    checkIfOpenNow (utcMinutes 2024 1 16 18 0)
      [({ startUtc := utcMinutes 2024 1 15 15 30,
          endUtc := utcMinutes 2024 1 15 19 0, timezone := "GMT",
          original := "7:30am - 11:00am", type := SType.lap
          : TimestampedHour })] = false :=
  ⟨by decide, by decide,
   (c7_not_today_closed [] (daysFromCivil 2024 1 15) (utcMinutes 2024 1 16 18 0)
     [({ startUtc := utcMinutes 2024 1 15 15 30,
         endUtc := utcMinutes 2024 1 15 19 0, timezone := "GMT",
         original := "7:30am - 11:00am", type := SType.lap
         : TimestampedHour })] (by decide) (by decide)).2⟩

/-- C6 (counterexample): a week in which one day failed (with empty
hours) and the other six succeeded with zero sessions gets the
week-level "no data" message even though a day failed — the message
requires only that not all days failed, not that none did. -/
theorem c6_counterexample :
    (aggregateWeeklyPoolHours
        (fun d => if d = daysFromCivil 2024 1 15 then ⟨[], some "boom"⟩ else ⟨[], none⟩)
        (utcMinutes 2024 1 17 0 0) (-480) 0).error =
      some "No pool hours data available for this week" ∧
    ∃ d ∈ (aggregateWeeklyPoolHours
        (fun d => if d = daysFromCivil 2024 1 15 then ⟨[], some "boom"⟩ else ⟨[], none⟩)
        (utcMinutes 2024 1 17 0 0) (-480) 0).weekData, d.error ≠ none := by
  decide

/-- C6 (amended): the week-level error is the all-days-failed message
iff every day carries an error; it is the no-data message iff not
every day carries an error and every day has zero sessions (some days
may still have failed); and it is absent iff not every day failed and
some day has at least one session. -/
theorem c6_week_error_amended (fetch : Int → DayFetch) (now tzOff weekOffset : Int) :
    ((aggregateWeeklyPoolHours fetch now tzOff weekOffset).error =
        some "Failed to fetch data for all days of the week" ↔
      ∀ d ∈ (aggregateWeeklyPoolHours fetch now tzOff weekOffset).weekData,
        d.error ≠ none) ∧
    ((aggregateWeeklyPoolHours fetch now tzOff weekOffset).error =
        some "No pool hours data available for this week" ↔
      ¬(∀ d ∈ (aggregateWeeklyPoolHours fetch now tzOff weekOffset).weekData,
          d.error ≠ none) ∧
        ∀ d ∈ (aggregateWeeklyPoolHours fetch now tzOff weekOffset).weekData,
          d.hours = []) ∧
    ((aggregateWeeklyPoolHours fetch now tzOff weekOffset).error = none ↔
      ¬(∀ d ∈ (aggregateWeeklyPoolHours fetch now tzOff weekOffset).weekData,
          d.error ≠ none) ∧
        ∃ d ∈ (aggregateWeeklyPoolHours fetch now tzOff weekOffset).weekData,
          d.hours ≠ []) :=
  weekErrorOf_spec (aggregateWeeklyPoolHours fetch now tzOff weekOffset).weekData

end PoolHours
